import Mathlib

/-!
# Verification of the cudf copying primitives

Shallow embedding of `python/cudf/cudf/_libxx/copying.pyx` (the Cython
bindings of the libcudf copying primitives) and of the error utilities
header.  Columns are modelled as lists of nullable elements
(`Option Int`, with `none` standing for a null), and tables as lists of
rows.  The guard logic of the Python wrappers is embedded directly from
the source; the device kernels behind `cpp_copying.*` are not part of
the sources and are modelled from the specification where needed, each
such definition saying so in its doc comment.
-/

namespace Cudf

/-- A nullable element of a column: `none` is a null value. -/
abbrev Cell := Option Int

/-- A column: a typed, fixed-length nullable array, as a list of cells. -/
abbrev Column := List Cell

/-- A table row: one cell per column of the table. -/
abbrev Row := List Cell

/-- A table, viewed row-wise: an ordered list of rows (all of the same
width for a well-formed table). -/
abbrev Table := List Row

/-! ## copy_range (`copying.pyx`, lines 98-127)

The Python `copy_range` applies three guards before dispatching to the
device kernel: a no-op test `abs(target_end - target_begin) <= 1` on the
raw bounds, normalization of negative bounds by adding the target size,
and a post-normalization `target_begin > target_end` no-op test.  The
in-place branch mutates the target and returns `None`; the out-of-place
branch returns a fresh column. -/

/-- Negative bounds on the destination span are normalized by adding the
column size (`copying.pyx` lines 113-117). -/
def normalizeBound (size : Nat) (b : Int) : Int :=
  if b < 0 then b + size else b

/-- Modelled from the spec: the libcudf `copy_range` kernel
(`cpp_copying.copy_range` / `copy_range_in_place`, not under the
sources) copies elements `[input_begin, input_end)` of `input` onto
`target` starting at `target_begin`, values and validity alike, leaving
every other element of `target` unchanged. -/
def copyRangeKernel (input target : Column) (input_begin input_end target_begin : Int) :
    Column :=
  (List.range target.length).map fun (j : Nat) =>
    if target_begin ≤ (j : Int) ∧ (j : Int) < target_begin + (input_end - input_begin) then
      ((input.get? (input_begin + ((j : Int) - target_begin)).toNat).getD none)
    else
      ((target.get? j).getD none)

/-- Outcome of a Python `copy_range` call: `ret` is the Python return
value (`none` models the Python `None` returned on the in-place path),
and `target_after` is the state of the target column storage after the
call (mutated only by the in-place branch). -/
structure CopyRangeOutcome where
  ret : Option Column
  target_after : Column
  deriving Repr, DecidableEq

/-- The stage of `copy_range` after the raw-bounds no-op guard: receives
already-normalized destination bounds, returns the target unchanged when
`target_begin > target_end`, otherwise dispatches to the in-place or
out-of-place kernel (`copying.pyx` lines 119-127). -/
def copy_range_after_guard (input target : Column)
    (input_begin input_end target_begin target_end : Int) (inplace : Bool) :
    CopyRangeOutcome :=
  if target_begin > target_end then
    ⟨some target, target⟩
  else if inplace then
    ⟨none, copyRangeKernel input target input_begin input_end target_begin⟩
  else
    ⟨some (copyRangeKernel input target input_begin input_end target_begin), target⟩

/-- The Python `copy_range` (`copying.pyx` lines 98-127): the no-op
guard `abs(target_end - target_begin) <= 1` is tested on the raw bounds,
then negative bounds are normalized by adding the target size, then the
normalized bounds go through the remaining guard and dispatch. -/
def copy_range (input target : Column)
    (input_begin input_end target_begin target_end : Int) (inplace : Bool) :
    CopyRangeOutcome :=
  if |target_end - target_begin| ≤ 1 then
    ⟨some target, target⟩
  else
    copy_range_after_guard input target input_begin input_end
      (normalizeBound target.length target_begin)
      (normalizeBound target.length target_end) inplace

/-- Negative-index wraparound shared by gather and scatter maps: a
negative index `k` maps to `size + k`, a non-negative one is kept. -/
def wrapIndex (size : Nat) (k : Int) : Int :=
  if k < 0 then (size : Int) + k else k

/-- Whether a map entry lies in `[0, size)` after wraparound. -/
def inBounds (size : Nat) (k : Int) : Bool :=
  decide (0 ≤ wrapIndex size k) && decide (wrapIndex size k < (size : Int))

/-- Modelled from the spec: the libcudf `gather` kernel
(`cpp_copying.gather`, not under the sources).  Output row `i` is a copy
of the source row at the wrapped index `gather_map[i]`; a wrapped index
outside the source is a fatal error, modelled as `none`. -/
def gatherRows (source : Table) : List Int → Option Table
  | [] => some []
  | k :: ks =>
    let j := wrapIndex source.length k
    if h : 0 ≤ j ∧ j.toNat < source.length then
      match gatherRows source ks with
      | some rest => some (source.get ⟨j.toNat, h.2⟩ :: rest)
      | none => none
    else
      none

/-- The write loop of the scatter kernel in the table form: for each
`i`, target row at the wrapped index `scatter_map[i]` is overwritten by
source row `i`; `size` is the target row count. -/
def scatterWrites : List Int → Table → Nat → Table → Table
  | [], _, _, target => target
  | _ :: _, [], _, target => target
  | k :: ks, r :: rs, size, target =>
    scatterWrites ks rs size (target.set (wrapIndex size k).toNat r)

/-- The write loop of the scatter kernel in the scalar form: every
target row addressed by the map is overwritten by the row of broadcast
scalars, one scalar per column. -/
def scatterScalarWrites : List Int → Row → Nat → Table → Table
  | [], _, _, target => target
  | k :: ks, scalars, size, target =>
    scatterScalarWrites ks scalars size
      (target.set (wrapIndex size k).toNat scalars)

/-- Modelled from the spec: `_scatter_table` (`copying.pyx` lines
155-186) backed by the libcudf table-form `scatter` kernel: a copy of
the target with row `scatter_map[i]` overwritten by source row `i`;
with `bounds_check` on, any wrapped index outside the target is a fatal
error, modelled as `none`. -/
def scatter_table (source : Table) (scatter_map : List Int) (target : Table)
    (bounds_check : Bool) : Option Table :=
  if bounds_check && !(scatter_map.all fun k => inBounds target.length k) then
    none
  else
    some (scatterWrites scatter_map source target.length target)

/-- Modelled from the spec: `_scatter_scalar` (`copying.pyx` lines
189-225) backed by the libcudf scalar-form `scatter` kernel: a copy of
the target in which every row addressed by the map is overwritten by
the broadcast scalars, one per column. -/
def scatter_scalar (scalars : Row) (scatter_map : List Int) (target : Table)
    (bounds_check : Bool) : Option Table :=
  if bounds_check && !(scatter_map.all fun k => inBounds target.length k) then
    none
  else
    some (scatterScalarWrites scatter_map scalars target.length target)

/-- The two operand forms the Python `scatter` dispatcher accepts: a
table of source rows, or one scalar per target column. -/
inductive ScatterInput where
  | table (rows : Table)
  | scalars (values : Row)

/-- The Python `scatter` dispatcher (`copying.pyx` lines 228-243):
table input goes to the table form, anything else to the scalar form. -/
def scatter (input : ScatterInput) (scatter_map : List Int) (target : Table)
    (bounds_check : Bool) : Option Table :=
  match input with
  | .table rows => scatter_table rows scatter_map target bounds_check
  | .scalars values => scatter_scalar values scatter_map target bounds_check

/-! ### Helper lemmas on the gather and scatter loops -/

/-- An operand of `copy_if_else`: a column, or a host scalar value
(with `none` standing for the Python `None`, the null scalar). -/
inductive CIEOperand where
  | column (c : Column)
  | scalarVal (v : Option Int)

/-- Result of the Python `copy_if_else`: either a column computed by a
device kernel call, or the null scalar-equivalent returned directly
with no kernel call and no mask evaluation. -/
inductive CIEResult where
  | computed (c : Column)
  | directNull
  deriving DecidableEq

/-- Modelled from the spec: the libcudf `copy_if_else` kernel
(section 4.6): per row `i` the output is the `lhs` element if the mask
at `i` is true and valid (a null mask entry selects the `rhs` branch),
else the `rhs` element; scalars broadcast to every row. -/
def copyIfElseKernel (lhs rhs : Nat → Cell) (mask : List (Option Bool)) :
    Column :=
  (List.range mask.length).map fun (i : Nat) =>
    if mask[i]? = some (some true) then lhs i else rhs i

/-- Element lookup a column operand contributes to the kernel. -/
def columnElem (col : Column) : Nat → Cell := fun i => (col[i]?).getD none

/-- The Python `copy_if_else` dispatcher (`copying.pyx` lines
524-541). -/
def copy_if_else (lhs rhs : CIEOperand) (boolean_mask : List (Option Bool)) :
    CIEResult :=
  match lhs, rhs with
  | .column l, .column r =>
    .computed (copyIfElseKernel (columnElem l) (columnElem r) boolean_mask)
  | .column l, .scalarVal r =>
    .computed (copyIfElseKernel (columnElem l) (fun _ => r) boolean_mask)
  | .scalarVal l, .column r =>
    .computed (copyIfElseKernel (fun _ => l) (columnElem r) boolean_mask)
  | .scalarVal l, .scalarVal r =>
    if l = none ∧ r = none then
      .directNull
    else
      .computed (copyIfElseKernel (fun _ => l) (fun _ => r) boolean_mask)

/-- Modelled from the spec: the libcudf `shift` kernel (section 4.8):
element `i` of the output is `input[i - offset]` when that index is in
range, else the fill scalar (null fill giving a null position). -/
def shift (input : Column) (offset : Int) (fill_value : Cell) : Column :=
  (List.range input.length).map fun (i : Nat) =>
    let j : Int := (i : Int) - offset
    if 0 ≤ j ∧ j < (input.length : Int) then (input[j.toNat]?).getD none
    else fill_value

/-- Modelled from the spec: the libcudf table-form
`boolean_mask_scatter` kernel (section 4.7): rows of the target where
the mask is true are overwritten, in order, by successive input rows;
rows where the mask is false are copied unchanged. -/
def booleanMaskScatterTable : Table → Table → List Bool → Table
  | _, [], _ => []
  | _, t :: ts, [] => t :: ts
  | inp, t :: ts, m :: ms =>
    if m then
      match inp with
      | [] => t :: booleanMaskScatterTable [] ts ms
      | a :: rest => a :: booleanMaskScatterTable rest ts ms
    else
      t :: booleanMaskScatterTable inp ts ms

/-- Modelled from the spec: the libcudf scalar-form
`boolean_mask_scatter` kernel (section 4.7): every target row where
the mask is true is overwritten by the broadcast scalars, one per
column; rows where the mask is false are copied unchanged. -/
def booleanMaskScatterScalars (scalars : Row) : Table → List Bool → Table
  | [], _ => []
  | t :: ts, [] => t :: ts
  | t :: ts, m :: ms =>
    (if m then scalars else t) :: booleanMaskScatterScalars scalars ts ms

/-- The two operand forms the `boolean_mask_scatter` dispatcher
accepts: a table of input rows, or one scalar per target column. -/
inductive BMSInput where
  | table (rows : Table)
  | scalars (values : Row)

/-- The Python `boolean_mask_scatter` dispatcher (`copying.pyx` lines
599-606): it invokes the table-form or scalar-form helper, but neither
branch returns the helper's result — the computed table is discarded
and the function falls off the end, so the Python return value is
`None`, modelled as `none`. -/
def boolean_mask_scatter (input : BMSInput) (target_table : Table)
    (boolean_mask : List Bool) : Option Table :=
  match input with
  | .table rows =>
    let _ := booleanMaskScatterTable rows target_table boolean_mask
    none
  | .scalars values =>
    let _ := booleanMaskScatterScalars values target_table boolean_mask
    none

/-- The two error classes of the error-utilities header:
`cudf::logic_error` (a logic error, thrown by `CUDF_EXPECTS`) and
`cudf::cuda_error` (a device error, thrown by `throw_cuda_error`). -/
inductive CudfError where
  | logicError (message : String)
  | cudaError (message : String)
  deriving DecidableEq

/-- A device fault as reported by the CUDA runtime: numeric code,
name, and message (`cudaGetErrorName` / `cudaGetErrorString`). -/
structure CudaFault where
  code : Nat
  name : String
  message : String

/-- A device execution stream: a pending device fault, if any, becomes
observable only when the stream is synchronized. -/
structure Stream where
  pendingFault : Option CudaFault

/-- `CUDF_EXPECTS` (part_000, lines 69-73): evaluates the condition
and, when it is violated, throws a `cudf::logic_error` whose message
carries the source location and the diagnostic reason. -/
def cudfExpects (cond : Bool) (file : String) (line : Nat)
    (reason : String) : Except CudfError Unit :=
  if cond then .ok ()
  else .error (.logicError
    ("cuDF failure at: " ++ file ++ ":" ++ toString line ++ ": " ++ reason))

/-- `throw_cuda_error` (part_000, lines 78-84): wraps a device fault
code, name and message, with the source location, into a
`cudf::cuda_error`. -/
def throwCudaError (fault : CudaFault) (file : String) (line : Nat) :
    CudfError :=
  .cudaError ("CUDA error encountered at: " ++ file ++ ":" ++ toString line
    ++ ": " ++ toString fault.code ++ " " ++ fault.name ++ " "
    ++ fault.message)

/-- `check_stream` (part_000, lines 86-98): synchronizes the stream
and, if a device fault is pending, surfaces it as a
`cudf::cuda_error`. -/
def check_stream (s : Stream) (file : String) (line : Nat) :
    Except CudfError Unit :=
  match s.pendingFault with
  | some fault => .error (throwCudaError fault file line)
  | none => .ok ()

/-- A primitive call in this error model: the precondition is checked
synchronously by `CUDF_EXPECTS` before the device work is launched, so
on a violation the launch never runs. -/
def runPrimitive (precondition : Bool) (file : String) (line : Nat)
    (reason : String) (launch : Stream → Stream) (s : Stream) :
    Except CudfError Stream :=
  match cudfExpects precondition file line reason with
  | .error e => .error e
  | .ok _ => .ok (launch s)

/-! ## Theorems -/

/-- C2: with a raw destination span of length at most one, `copy_range`
returns the target unchanged; otherwise negative destination bounds are
normalized by adding the target size; and when the normalized begin
exceeds the normalized end the call again returns the target unchanged
rather than raising. -/
theorem copy_range_guard_policy (input target : Column)
    (input_begin input_end target_begin target_end : Int) (inplace : Bool) :
    (|target_end - target_begin| ≤ 1 →
      copy_range input target input_begin input_end target_begin target_end inplace =
        ⟨some target, target⟩)
  ∧ (¬ |target_end - target_begin| ≤ 1 →
      copy_range input target input_begin input_end target_begin target_end inplace =
        copy_range_after_guard input target input_begin input_end
          (normalizeBound target.length target_begin)
          (normalizeBound target.length target_end) inplace)
  ∧ (¬ |target_end - target_begin| ≤ 1 →
      normalizeBound target.length target_begin >
        normalizeBound target.length target_end →
      copy_range input target input_begin input_end target_begin target_end inplace =
        ⟨some target, target⟩) := by
  refine ⟨fun h => ?_, fun h => ?_, fun h hgt => ?_⟩
  · simp [copy_range, h]
  · simp [copy_range, h]
  · simp [copy_range, h, copy_range_after_guard, hgt]

/-- Witness for C2 at concrete inputs: a length-one raw span is a no-op,
and a raw span whose normalized begin exceeds its normalized end is a
no-op. -/
theorem copy_range_guard_policy_witness :
    (copy_range [some 7] [some 1, some 2, some 3] 0 1 0 1 false =
      ⟨some [some 1, some 2, some 3], [some 1, some 2, some 3]⟩)
  ∧ (copy_range [some 7] [some 1, some 2, some 3] 0 1 2 (-3) false =
      ⟨some [some 1, some 2, some 3], [some 1, some 2, some 3]⟩) :=
  ⟨(copy_range_guard_policy [some 7] [some 1, some 2, some 3] 0 1 0 1 false).1
      (by decide),
   (copy_range_guard_policy [some 7] [some 1, some 2, some 3] 0 1 2 (-3) false).2.2
      (by decide) (by decide)⟩

/-- C10: when `inplace = True` and the destination span passes both
no-op guards (raw length above one and normalized begin at most
normalized end), `copy_range` mutates the target storage through the
in-place kernel and returns no column; the return value is `None`
exactly on that path, so only the out-of-place branch and the two guard
branches return a column. -/
theorem copy_range_inplace_returns_none (input target : Column)
    (input_begin input_end target_begin target_end : Int) (inplace : Bool) :
    ((copy_range input target input_begin input_end target_begin target_end
        inplace).ret = none ↔
      (inplace = true ∧ ¬ |target_end - target_begin| ≤ 1 ∧
        normalizeBound target.length target_begin ≤
          normalizeBound target.length target_end))
  ∧ (inplace = true → ¬ |target_end - target_begin| ≤ 1 →
      normalizeBound target.length target_begin ≤
        normalizeBound target.length target_end →
      (copy_range input target input_begin input_end target_begin target_end
          inplace).target_after =
        copyRangeKernel input target input_begin input_end
          (normalizeBound target.length target_begin)) := by
  constructor
  · constructor
    · intro hnone
      by_cases hg : |target_end - target_begin| ≤ 1
      · simp [copy_range, hg] at hnone
      · by_cases hgt : normalizeBound target.length target_begin >
            normalizeBound target.length target_end
        · simp [copy_range, hg, copy_range_after_guard, hgt] at hnone
        · cases hip : inplace
          · simp [copy_range, hg, copy_range_after_guard, hgt, hip] at hnone
          · exact ⟨rfl, hg, not_lt.mp hgt⟩
    · rintro ⟨hip, hg, hle⟩
      simp [copy_range, hg, copy_range_after_guard, not_lt.mpr hle, hip]
  · intro hip hg hle
    simp [copy_range, hg, copy_range_after_guard, not_lt.mpr hle, hip]

/-- Witness for C10: an in-place call whose span passes the guards
returns `None` and leaves the target storage overwritten by the
in-place kernel. -/
theorem copy_range_inplace_returns_none_witness :
    (copy_range [some 7, some 8] [some 1, some 2, some 3] 0 2 0 2 true).ret =
        none
  ∧ (copy_range [some 7, some 8] [some 1, some 2, some 3] 0 2 0 2
        true).target_after =
      copyRangeKernel [some 7, some 8] [some 1, some 2, some 3] 0 2 0 :=
  ⟨(copy_range_inplace_returns_none [some 7, some 8] [some 1, some 2, some 3]
      0 2 0 2 true).1.mpr ⟨rfl, by decide, by decide⟩,
   (copy_range_inplace_returns_none [some 7, some 8] [some 1, some 2, some 3]
      0 2 0 2 true).2 rfl (by decide) (by decide)⟩

/-- C9: the length-at-most-one no-op test is applied to the raw bounds
before negative-bound normalization: with `target_begin = 0` and
`target_end = -1` on a five-element column the normalized span `[0, 4)`
has length `4 > 1`, yet `copy_range` returns the target unchanged. -/
theorem copy_range_noop_guard_pre_normalization :
    (copy_range [some 9, some 9, some 9, some 9]
        [some 1, some 2, some 3, some 4, some 5] 0 4 0 (-1) false =
      ⟨some [some 1, some 2, some 3, some 4, some 5],
        [some 1, some 2, some 3, some 4, some 5]⟩)
  ∧ normalizeBound 5 (-1) - normalizeBound 5 0 = 4 := by
  constructor
  · decide
  · decide

/-! ## gather and scatter (`copying.pyx`, lines 130-243)

The Python `gather`, `_scatter_table`, `_scatter_scalar` and `scatter`
wrappers hand the work to the libcudf kernels, which are not under the
sources; the row-level semantics below is modelled from the
specification (sections 4.3 and 4.4): integer maps with negative-index
wraparound (`k` maps to `size + k`), gather output row `i` a copy of
source row `gather_map[i]`, scatter a copy of the target with row
`scatter_map[i]` overwritten by source row `i`, and `bounds_check`
failing fast on any wrapped index outside `[0, rows)`. -/

theorem gatherRows_length (source : Table) :
    ∀ (gmap : List Int) (res : Table), gatherRows source gmap = some res →
      res.length = gmap.length := by
  intro gmap
  induction gmap with
  | nil =>
    intro res h
    simp only [gatherRows, Option.some.injEq] at h
    simp [← h]
  | cons k ks ih =>
    intro res h
    simp only [gatherRows] at h
    split at h
    · cases hrec : gatherRows source ks with
      | some rest =>
        rw [hrec] at h
        simp only [Option.some.injEq] at h
        simp [← h, ih rest hrec]
      | none => rw [hrec] at h; exact absurd h (by simp)
    · exact absurd h (by simp)

theorem gatherRows_get (source : Table) :
    ∀ (gmap : List Int) (res : Table), gatherRows source gmap = some res →
      ∀ (i : Nat) (hi : i < gmap.length),
        ∃ hj : (wrapIndex source.length (gmap.get ⟨i, hi⟩)).toNat <
            source.length,
          res[i]? = some (source.get
            ⟨(wrapIndex source.length (gmap.get ⟨i, hi⟩)).toNat, hj⟩) := by
  intro gmap
  induction gmap with
  | nil => intro res h i hi; exact absurd hi (by simp)
  | cons k ks ih =>
    intro res h i hi
    simp only [gatherRows] at h
    split at h
    · rename_i hin
      cases hrec : gatherRows source ks with
      | some rest =>
        rw [hrec] at h
        simp only [Option.some.injEq] at h
        cases i with
        | zero => exact ⟨hin.2, by simp [← h]⟩
        | succ n =>
          have hn : n < ks.length := by simpa using hi
          obtain ⟨hj, hget⟩ := ih rest hrec n hn
          exact ⟨hj, by simpa [← h] using hget⟩
      | none => rw [hrec] at h; exact absurd h (by simp)
    · exact absurd h (by simp)

theorem gatherRows_isSome (source : Table) :
    ∀ (gmap : List Int),
      (∀ k ∈ gmap, 0 ≤ wrapIndex source.length k ∧
        (wrapIndex source.length k).toNat < source.length) →
      ∃ res, gatherRows source gmap = some res := by
  intro gmap
  induction gmap with
  | nil => intro _; exact ⟨[], rfl⟩
  | cons k ks ih =>
    intro hmem
    obtain ⟨rest, hrest⟩ := ih fun k hk => hmem k (List.mem_cons_of_mem _ hk)
    have hk := hmem k (List.mem_cons_self k ks)
    refine ⟨source.get ⟨(wrapIndex source.length k).toNat, hk.2⟩ :: rest, ?_⟩
    simp only [gatherRows]
    rw [dif_pos hk, hrest]

theorem scatterWrites_length :
    ∀ (ks : List Int) (rs : Table) (size : Nat) (target : Table),
      (scatterWrites ks rs size target).length = target.length := by
  intro ks
  induction ks with
  | nil => intro rs size target; rfl
  | cons k ks ih =>
    intro rs size target
    cases rs with
    | nil => rfl
    | cons r rs => simp [scatterWrites, ih, List.length_set]

theorem scatterScalarWrites_length :
    ∀ (ks : List Int) (scalars : Row) (size : Nat) (target : Table),
      (scatterScalarWrites ks scalars size target).length = target.length := by
  intro ks
  induction ks with
  | nil => intro scalars size target; rfl
  | cons k ks ih =>
    intro scalars size target
    simp [scatterScalarWrites, ih, List.length_set]

theorem scatterWrites_not_addressed :
    ∀ (ks : List Int) (rs : Table) (size : Nat) (target : Table) (j : Nat),
      (∀ k ∈ ks, (wrapIndex size k).toNat ≠ j) →
      (scatterWrites ks rs size target)[j]? = target[j]? := by
  intro ks
  induction ks with
  | nil => intro rs size target j _; rfl
  | cons k ks ih =>
    intro rs size target j hna
    cases rs with
    | nil => rfl
    | cons r rs =>
      have hk := hna k (List.mem_cons_self k ks)
      rw [scatterWrites,
        ih rs size _ j fun k hk => hna k (List.mem_cons_of_mem _ hk),
        List.getElem?_set_ne hk]

theorem scatterScalarWrites_not_addressed :
    ∀ (ks : List Int) (scalars : Row) (size : Nat) (target : Table) (j : Nat),
      (∀ k ∈ ks, (wrapIndex size k).toNat ≠ j) →
      (scatterScalarWrites ks scalars size target)[j]? = target[j]? := by
  intro ks
  induction ks with
  | nil => intro scalars size target j _; rfl
  | cons k ks ih =>
    intro scalars size target j hna
    have hk := hna k (List.mem_cons_self k ks)
    rw [scatterScalarWrites,
      ih scalars size _ j fun k hk => hna k (List.mem_cons_of_mem _ hk),
      List.getElem?_set_ne hk]

/-- C4: when `gather` succeeds, the output row count equals the gather
map length, output row `i` is a copy of the source row at the wrapped
index `gather_map[i]`, and an output element is null exactly when the
gathered source element is null. -/
theorem gather_semantics (source : Table) (gmap : List Int) (res : Table)
    (h : gatherRows source gmap = some res) :
    res.length = gmap.length ∧
    ∀ (i : Nat) (hi : i < gmap.length),
      ∃ hj : (wrapIndex source.length (gmap.get ⟨i, hi⟩)).toNat <
          source.length,
        res[i]? = some (source.get
          ⟨(wrapIndex source.length (gmap.get ⟨i, hi⟩)).toNat, hj⟩) ∧
        ∀ c : Nat,
          ((res[i]?.getD [])[c]? = some none ↔
            ((source.get ⟨(wrapIndex source.length
              (gmap.get ⟨i, hi⟩)).toNat, hj⟩ : Row)[c]? = some none)) := by
  refine ⟨gatherRows_length source gmap res h, fun i hi => ?_⟩
  obtain ⟨hj, hget⟩ := gatherRows_get source gmap res h i hi
  exact ⟨hj, hget, fun c => by rw [hget]; simp⟩

/-- Witness for C4, the spec scenario: gathering the single-column
table `[10, null, 30, 40]` with map `[3, 1, 0]` gives `[40, null, 10]`,
whose row count is the map length. -/
theorem gather_semantics_witness :
    ([[some 40], [(none : Cell)], [some 10]] : Table).length =
      ([3, 1, 0] : List Int).length :=
  (gather_semantics [[some 10], [none], [some 30], [some 40]] [3, 1, 0]
    [[some 40], [none], [some 10]] (by decide)).1

/-- C5: for both scatter forms, a successful scatter preserves the
target row count, and every target row whose index is addressed by no
wrapped scatter-map entry appears unchanged in the result; the target
value itself is left untouched (the result is built as a copy). -/
theorem scatter_frame_effect (input : ScatterInput) (smap : List Int)
    (target out : Table) (bounds_check : Bool)
    (h : scatter input smap target bounds_check = some out) :
    out.length = target.length ∧
    ∀ j : Nat, (∀ k ∈ smap, (wrapIndex target.length k).toNat ≠ j) →
      out[j]? = target[j]? := by
  cases input with
  | table rows =>
    simp only [scatter, scatter_table] at h
    split at h
    · exact absurd h (by simp)
    · simp only [Option.some.injEq] at h
      exact ⟨by rw [← h, scatterWrites_length],
        fun j hna => by rw [← h, scatterWrites_not_addressed _ _ _ _ _ hna]⟩
  | scalars values =>
    simp only [scatter, scatter_scalar] at h
    split at h
    · exact absurd h (by simp)
    · simp only [Option.some.injEq] at h
      exact ⟨by rw [← h, scatterScalarWrites_length],
        fun j hna => by
          rw [← h, scatterScalarWrites_not_addressed _ _ _ _ _ hna]⟩

/-- Witness for C5, the spec scenario: scattering rows `[9], [8]` at
map `[0, -1]` into `[1..5]` yields `[9, 2, 3, 4, 8]`; row 1, addressed
by no wrapped map entry, is unchanged. -/
theorem scatter_frame_effect_witness :
    ([[some 9], [some 2], [some 3], [some 4], [some 8]] : Table)[1]? =
      ([[some 1], [some 2], [some 3], [some 4], [some 5]] : Table)[1]? :=
  (scatter_frame_effect (.table [[some 9], [some 8]]) [0, -1]
    [[some 1], [some 2], [some 3], [some 4], [some 5]]
    [[some 9], [some 2], [some 3], [some 4], [some 8]] true (by decide)).2
    1 (by decide)

theorem scatterWrites_written :
    ∀ (ks : List Int) (rs : Table) (size : Nat) (target : Table)
      (i : Nat) (kv : Int) (rv : Row),
      ks[i]? = some kv → rs[i]? = some rv →
      (ks.map fun k => (wrapIndex size k).toNat).Nodup →
      (wrapIndex size kv).toNat < target.length →
      (scatterWrites ks rs size target)[(wrapIndex size kv).toNat]? =
        some rv := by
  intro ks
  induction ks with
  | nil => intro rs size target i kv rv hk; exact absurd hk (by simp)
  | cons k ks ih =>
    intro rs size target i kv rv hk hr hnodup hlt
    cases rs with
    | nil => exact absurd hr (by simp)
    | cons r rs =>
      rw [List.map_cons, List.nodup_cons] at hnodup
      cases i with
      | zero =>
        simp only [List.getElem?_cons_zero, Option.some.injEq] at hk hr
        subst hk; subst hr
        have hna : ∀ k2 ∈ ks,
            (wrapIndex size k2).toNat ≠ (wrapIndex size k).toNat := by
          intro k2 hk2 heq
          exact hnodup.1 (heq ▸ List.mem_map_of_mem _ hk2)
        rw [scatterWrites, scatterWrites_not_addressed ks rs size _ _ hna]
        exact List.getElem?_set_eq_of_lt r hlt
      | succ n =>
        simp only [List.getElem?_cons_succ] at hk hr
        rw [scatterWrites]
        exact ih rs size _ n kv rv hk hr hnodup.2 (by simpa using hlt)

/-- C3: gather followed by scatter with the same invertible permutation
restores the original table: for `P` a permutation of the row indices
of `T` and `Tp` a target of the same row count,
`scatter(gather(T, P), P, Tp) = T`. -/
theorem gather_scatter_roundtrip (T Tp : Table) (P : List Int)
    (hlen : P.length = T.length)
    (hmem : ∀ k ∈ P, 0 ≤ k ∧ k < (T.length : Int))
    (hnodup : P.Nodup)
    (hshape : Tp.length = T.length) :
    ∃ G, gatherRows T P = some G ∧
      scatter (.table G) P Tp true = some T := by
  have hwrap : ∀ (s : Nat), ∀ k ∈ P, wrapIndex s k = k := fun s k hk =>
    if_neg (not_lt.mpr (hmem k hk).1)
  -- gather succeeds
  obtain ⟨G, hG⟩ := gatherRows_isSome T P (by
    intro k hk
    rw [hwrap T.length k hk]
    exact ⟨(hmem k hk).1, (Int.toNat_lt (hmem k hk).1).mpr (hmem k hk).2⟩)
  refine ⟨G, hG, ?_⟩
  -- the bounds check passes
  have hall : (P.all fun k => inBounds Tp.length k) = true := by
    rw [List.all_eq_true]
    intro k hk
    simp only [inBounds, hwrap Tp.length k hk, Bool.and_eq_true,
      decide_eq_true_eq]
    exact ⟨(hmem k hk).1, by rw [hshape]; exact (hmem k hk).2⟩
  have hsc : scatter (.table G) P Tp true =
      some (scatterWrites P G Tp.length Tp) := by
    simp [scatter, scatter_table, hall]
  rw [hsc]
  -- the wrapped map enumerates every row index of T exactly once
  have hPn_nodup : (P.map fun k => (wrapIndex Tp.length k).toNat).Nodup := by
    refine hnodup.map_on ?_
    intro a ha b hb hab
    rw [hwrap Tp.length a ha, hwrap Tp.length b hb] at hab
    calc a = ((a.toNat : Int)) := (Int.toNat_of_nonneg (hmem a ha).1).symm
      _ = ((b.toNat : Int)) := by rw [hab]
      _ = b := Int.toNat_of_nonneg (hmem b hb).1
  have hPn_lt : ∀ x ∈ P.map fun k => (wrapIndex Tp.length k).toNat,
      x < T.length := by
    intro x hx
    obtain ⟨k, hk, hfk⟩ := List.mem_map.mp hx
    rw [← hfk, hwrap Tp.length k hk]
    exact (Int.toNat_lt (hmem k hk).1).mpr (hmem k hk).2
  have hsurj : ∀ j < T.length,
      j ∈ P.map fun k => (wrapIndex Tp.length k).toNat := by
    have hsub : (P.map fun k => (wrapIndex Tp.length k).toNat).toFinset ⊆
        Finset.range T.length := fun x hx =>
      Finset.mem_range.mpr (hPn_lt x (List.mem_toFinset.mp hx))
    have hcard : (Finset.range T.length).card ≤
        (P.map fun k => (wrapIndex Tp.length k).toNat).toFinset.card := by
      rw [Finset.card_range, List.toFinset_card_of_nodup hPn_nodup,
        List.length_map, hlen]
    have heq := Finset.eq_of_subset_of_card_le hsub hcard
    intro j hj
    exact List.mem_toFinset.mp (heq ▸ Finset.mem_range.mpr hj)
  -- pointwise agreement of the scattered result with T
  refine congrArg some (List.ext_getElem? fun j => ?_)
  by_cases hj : j < T.length
  · obtain ⟨i, hiPn, hij⟩ := List.getElem_of_mem (hsurj j hj)
    have hiP : i < P.length := by simpa using hiPn
    have hkv : P[i]? = some (P.get ⟨i, hiP⟩) := by
      rw [List.getElem?_eq_getElem hiP]; rfl
    have hkv_mem : P.get ⟨i, hiP⟩ ∈ P := List.get_mem P i hiP
    have hfkv : (wrapIndex Tp.length (P.get ⟨i, hiP⟩)).toNat = j := by
      rw [← hij, List.getElem_map]; rfl
    obtain ⟨hj2, hGi⟩ := gatherRows_get T P G hG i hiP
    have hwkvT : (wrapIndex T.length (P.get ⟨i, hiP⟩)).toNat = j := by
      rw [hwrap T.length _ hkv_mem]
      rw [hwrap Tp.length _ hkv_mem] at hfkv
      exact hfkv
    have hrow : T.get ⟨(wrapIndex T.length (P.get ⟨i, hiP⟩)).toNat, hj2⟩ =
        T.get ⟨j, hj⟩ := by congr 1; exact Fin.ext hwkvT
    rw [hrow] at hGi
    have hres := scatterWrites_written P G Tp.length Tp i
      (P.get ⟨i, hiP⟩) (T.get ⟨j, hj⟩) hkv hGi hPn_nodup
      (by rw [hfkv, hshape]; exact hj)
    rw [hfkv] at hres
    rw [hres, List.getElem?_eq_getElem hj]
    rfl
  · have hlen1 : (scatterWrites P G Tp.length Tp).length ≤ j := by
      rw [scatterWrites_length, hshape]
      exact le_of_not_lt hj
    rw [List.getElem?_eq_none hlen1,
      List.getElem?_eq_none (le_of_not_lt hj)]

/-- Witness for C3: the permutation `[2, 0, 1]` of a three-row table
roundtrips through gather and scatter. -/
theorem gather_scatter_roundtrip_witness :
    ∃ G, gatherRows [[some 1], [some 2], [some 3]] [2, 0, 1] = some G ∧
      scatter (.table G) [2, 0, 1] [[some 0], [some 0], [some 0]] true =
        some [[some 1], [some 2], [some 3]] :=
  gather_scatter_roundtrip [[some 1], [some 2], [some 3]]
    [[some 0], [some 0], [some 0]] [2, 0, 1]
    (by decide) (by decide) (by decide) (by decide)

/-! ## copy_if_else (`copying.pyx`, lines 444-541)

The Python `copy_if_else` dispatcher branches on whether each operand
is a Column; in the scalar/scalar branch, when both operands are the
Python `None` (the null scalar-equivalent) it returns `lhs` directly,
before any Scalar construction and without touching the boolean mask
(`copying.pyx` lines 537-538).  The device kernel behind
`cpp_copying.copy_if_else` is not under the sources and is modelled
from the specification (section 4.6). -/

/-- C6: when both operands are null scalars, `copy_if_else` returns
the null scalar-equivalent directly, computing no column; the boolean
mask is never evaluated, so the result is the same for every mask. -/
theorem copy_if_else_both_null_scalars (boolean_mask : List (Option Bool)) :
    copy_if_else (.scalarVal none) (.scalarVal none) boolean_mask =
      .directNull := by
  simp [copy_if_else]

/-! ## shift (`copying.pyx`, lines 609-632)

The Python `shift` wraps the libcudf `shift` kernel, which is not
under the sources; the semantics is modelled from the specification
(section 4.8). -/

/-- C7: a zero-offset shift is a value-for-value identity, whatever
the fill value: `shift(X, 0, fill) = X`, validity included. -/
theorem shift_zero_identity (input : Column) (fill_value : Cell) :
    shift input 0 fill_value = input := by
  have hlen : (shift input 0 fill_value).length = input.length := by
    simp [shift]
  refine List.ext_getElem hlen fun i h1 h2 => ?_
  simp only [shift, List.getElem_map, List.getElem_range, Int.sub_zero]
  rw [if_pos ⟨Int.natCast_nonneg i, by exact_mod_cast h2⟩]
  simp [List.getElem?_eq_getElem h2]

/-! ## boolean_mask_scatter (`copying.pyx`, lines 544-606)

The helpers `_boolean_mask_scatter_table` and
`_boolean_mask_scatter_scalar` build and return a new table; the
kernels behind them are not under the sources and are modelled from
the specification (section 4.7).  The dispatcher
`boolean_mask_scatter` (lines 599-606), however, invokes the helpers
without a `return`: both branches fall off the end of the function, so
its Python return value is `None` and the helper's table is
discarded. -/

/-- C1 (code bug): at the spec scenario — mask `[T,F,T,F]`, input rows
`[A,B]`, target `[p,q,r,s]` — the scatter kernel computes `[A,q,B,s]`
exactly as the claim states, but the Python `boolean_mask_scatter`
discards that table (its branches have no `return`) and yields `None`
instead of the new table; indeed it yields `None` on every input. -/
theorem boolean_mask_scatter_returns_none :
    booleanMaskScatterTable [[some 10], [some 20]]
        [[some 1], [some 2], [some 3], [some 4]]
        [true, false, true, false] =
      [[some 10], [some 2], [some 20], [some 4]]
  ∧ boolean_mask_scatter (.table [[some 10], [some 20]])
        [[some 1], [some 2], [some 3], [some 4]]
        [true, false, true, false] = none
  ∧ ∀ (input : BMSInput) (target : Table) (mask : List Bool),
      boolean_mask_scatter input target mask = none := by
  refine ⟨rfl, rfl, fun input target mask => ?_⟩
  cases input <;> rfl

/-! ## Error utilities (`src/unnamed/part_000`, errorutils header)

`CUDF_EXPECTS` throws `cudf::logic_error` synchronously when a
precondition fails; `cudf::detail::check_stream` synchronizes a stream
and surfaces any pending device fault as a `cudf::cuda_error` wrapping
the fault code, name and message.  A device fault is modelled as a
pending state on the stream, observable only through
synchronization. -/

/-- C8: failures fall in two distinguishable classes.  A violated
precondition is reported synchronously by `CUDF_EXPECTS` as a logic
error carrying the diagnostic message and source location, and a
primitive whose precondition fails reports that error without its
device launch ever running; a device fault pending on a stream is
surfaced only by stream synchronization, as a device error wrapping
the fault code, name and message; and no logic error is a device
error. -/
theorem error_taxonomy (cond : Bool) (file : String) (line : Nat)
    (reason : String) (fault : CudaFault) (launch : Stream → Stream)
    (s : Stream) :
    (cond = false →
      cudfExpects cond file line reason = .error (.logicError
        ("cuDF failure at: " ++ file ++ ":" ++ toString line ++ ": "
          ++ reason)))
  ∧ (cond = false →
      runPrimitive cond file line reason launch s = .error (.logicError
        ("cuDF failure at: " ++ file ++ ":" ++ toString line ++ ": "
          ++ reason)))
  ∧ (cond = true →
      runPrimitive cond file line reason launch s = .ok (launch s))
  ∧ check_stream ⟨some fault⟩ file line =
      .error (.cudaError ("CUDA error encountered at: " ++ file ++ ":"
        ++ toString line ++ ": " ++ toString fault.code ++ " "
        ++ fault.name ++ " " ++ fault.message))
  ∧ check_stream ⟨none⟩ file line = .ok ()
  ∧ ∀ m1 m2 : String, CudfError.logicError m1 ≠ CudfError.cudaError m2 := by
  refine ⟨fun h => ?_, fun h => ?_, fun h => ?_, rfl, rfl, fun m1 m2 => ?_⟩
  · simp [cudfExpects, h]
  · simp [runPrimitive, cudfExpects, h]
  · simp [runPrimitive, cudfExpects, h]
  · intro hcontra
    exact CudfError.noConfusion hcontra

/-- Witness for C8: a concrete failed precondition produces the logic
error and skips the launch; a concrete passing one launches. -/
theorem error_taxonomy_witness :
    runPrimitive false "copying.cu" 42 "row-count mismatch"
        (fun s => s) ⟨none⟩ =
      .error (.logicError
        "cuDF failure at: copying.cu:42: row-count mismatch")
  ∧ runPrimitive true "copying.cu" 42 "row-count mismatch"
        (fun s => s) ⟨none⟩ = .ok ⟨none⟩ :=
  ⟨(error_taxonomy false "copying.cu" 42 "row-count mismatch"
      ⟨2, "cudaErrorMemoryAllocation", "out of memory"⟩
      (fun s => s) ⟨none⟩).2.1 rfl,
   (error_taxonomy true "copying.cu" 42 "row-count mismatch"
      ⟨2, "cudaErrorMemoryAllocation", "out of memory"⟩
      (fun s => s) ⟨none⟩).2.2.1 rfl⟩

end Cudf
